import Mathlib

/-!
Verification development for `md2tgmdv2` (`src/lib.rs`): a Markdown to
Telegram MarkdownV2 renderer that splits its output into chunks bounded by a
configured byte limit.

The Rust code consumes the event stream of the external `pulldown-cmark`
parser.  The parser is outside this repository, so the embedding takes the
event stream as an explicit argument of `Converter.go`, next to the raw
markdown string (which `go` itself only trims and tests for emptiness).

Strings are modelled as `List Char`; every place the Rust code calls
`str::len` (a byte length) is modelled with `utf8Len`, the sum of the UTF-8
sizes of the characters.  Byte-indexed slicing (`str::split_at`, `&s[..n]`)
is modelled by `splitAtBytes`, which returns `none` exactly when the index
is not a character boundary or out of range — the cases where the Rust
slicing panics.  Panics (slice panics, `assert!`, `expect`, debug-mode
integer underflow) are modelled as the abort value `panicked`; the emit
loops carry explicit fuel and report `fuelOut` when it runs out, so that
non-termination of the Rust loops is expressible as `∀ fuel, result = fuelOut`.
-/

namespace Md2tgmd

/-- Strings as lists of characters (Rust `String` / `&str` contents). -/
abbrev Str := List Char

/-- Byte length of a string: what Rust's `str::len` returns. -/
def utf8Len (s : Str) : Nat := (s.map Char.utf8Size).sum

/-- Rust `char::is_whitespace`: the Unicode `White_Space` property. -/
def isWhitespaceRust (c : Char) : Bool :=
  c.val = 0x09 || c.val = 0x0A || c.val = 0x0B || c.val = 0x0C || c.val = 0x0D ||
  c.val = 0x20 || c.val = 0x85 || c.val = 0xA0 || c.val = 0x1680 ||
  (0x2000 ≤ c.val && c.val ≤ 0x200A) ||
  c.val = 0x2028 || c.val = 0x2029 || c.val = 0x202F || c.val = 0x205F || c.val = 0x3000

/-- Rust `str::trim`: drop Unicode whitespace from both ends. -/
def rustTrim (s : Str) : Str :=
  ((s.dropWhile isWhitespaceRust).reverse.dropWhile isWhitespaceRust).reverse

/-- The soft-whitespace predicate used at chunk boundaries
(`|c| c == ' ' || c == '\t'` in `output_with_skip`, and the trailing trim in
`split_chunk`). -/
def isSoftWs (c : Char) : Bool := c = ' ' || c = '\t'

/-- Drop trailing spaces/tabs (`trim_end_matches(soft_ws)`, and the `while
last.ends_with(' ') || last.ends_with('\t')` loop of `split_chunk`). -/
def trimEndSoft (s : Str) : Str := (s.reverse.dropWhile isSoftWs).reverse

/-- Drop leading spaces/tabs (`trim_start_matches(soft_ws)`). -/
def trimStartSoft (s : Str) : Str := s.dropWhile isSoftWs

/-- The characters escaped by `push_escaped` (lib.rs lines 834-845). -/
def isEscapedChar (c : Char) : Bool :=
  ("\\*_[]()~`>#+-=|\x7b\x7d.!".toList).contains c

/-- `push_escaped(out, text)`: append `text` to `out`, prefixing every
character of the Telegram MarkdownV2 special set with a backslash. -/
def push_escaped (out : Str) : Str → Str
  | [] => out
  | c :: rest =>
      push_escaped (out ++ (if isEscapedChar c then ['\\', c] else [c])) rest

/-- Escaping a string from scratch (`take_escaped`: clear the scratch buffer,
`push_escaped` into it, move it out). -/
def escapeStr (s : Str) : Str := push_escaped [] s

/-- Scanning loop of `split_point`: walk `char_indices`, stop at the first
index `≥ maxLen`, remember `idx + ch.len_utf8()` of the last whitespace. -/
def splitPointLoop (maxLen : Nat) : Str → Nat → Option Nat → Option Nat
  | [], _, lastSpace => lastSpace
  | c :: rest, idx, lastSpace =>
      if idx ≥ maxLen then lastSpace
      else
        splitPointLoop maxLen rest (idx + c.utf8Size)
          (if isWhitespaceRust c then some (idx + c.utf8Size) else lastSpace)

/-- `split_point(text, max_len)` (lib.rs lines 805-821): byte offset to cut a
text run at.  Full length if it fits, else the end of the last whitespace
character strictly inside the limit, else `0`. -/
def split_point (text : Str) (maxLen : Nat) : Nat :=
  if utf8Len text ≤ maxLen then utf8Len text
  else (splitPointLoop maxLen text 0 none).getD 0

/-- Split a string at a byte offset, as Rust `str::split_at` does: `none`
when the offset is out of range or not on a character boundary (the cases in
which the Rust call panics). -/
def splitAtBytes : Str → Nat → Option (Str × Str)
  | s, 0 => some ([], s)
  | [], _ + 1 => none
  | c :: rest, n + 1 =>
      if c.utf8Size ≤ n + 1 then
        (splitAtBytes rest (n + 1 - c.utf8Size)).map (fun p => (c :: p.1, p.2))
      else none

/-- Formatting scope descriptors (`enum Descriptor`). -/
inductive Descriptor
  | Strong
  | Emphasis
  | CodeBlock (lang : Str)
  | Strikethrough
  | Code
deriving DecidableEq, Repr

/-- `descriptor_closer`: the fixed close marker of each descriptor kind. -/
def descriptor_closer : Descriptor → Str
  | .Strong => "*".toList
  | .Emphasis => "_".toList
  | .Strikethrough => "~~".toList
  | .Code => "`".toList
  | .CodeBlock _ => "```".toList

/-- Kind comparison implemented by the manual `PartialEq` (lib.rs lines
847-858): two descriptors compare equal iff they are the same constructor,
`CodeBlock` regardless of language.  Comparing different constructors hits
`unimplemented!()`, i.e. panics, and a failed `assert_eq!` also panics; both
are modelled as `panicked` at the use site in `close_descriptor`. -/
def sameKind : Descriptor → Descriptor → Bool
  | .Strong, .Strong => true
  | .Emphasis, .Emphasis => true
  | .CodeBlock _, .CodeBlock _ => true
  | .Code, .Code => true
  | .Strikethrough, .Strikethrough => true
  | _, _ => false

/-- Heading levels 1-6 (`pulldown_cmark::HeadingLevel`). -/
inductive HeadingLevel
  | H1 | H2 | H3 | H4 | H5 | H6
deriving DecidableEq, Repr

/-- Code block kinds (`pulldown_cmark::CodeBlockKind`). -/
inductive CodeBlockKind
  | Indented
  | Fenced (lang : Str)
deriving DecidableEq, Repr

/-- Start tags consumed by `start_tag` (the `pulldown_cmark::Tag` variants
the code matches on; payload fields the code never reads are dropped). -/
inductive Tag
  | Paragraph
  | Heading (level : HeadingLevel)
  | BlockQuote
  | CodeBlock (kind : CodeBlockKind)
  | HtmlBlock
  | List (start : Option Nat)
  | Item
  | FootnoteDefinition
  | Table
  | TableHead
  | TableRow
  | TableCell
  | Subscript
  | Superscript
  | Emphasis
  | Strong
  | Strikethrough
  | Link (dest_url : Str)
  | Image (dest_url : Str)
  | MetadataBlock
  | DefinitionList
  | DefinitionListTitle
  | DefinitionListDefinition
deriving DecidableEq, Repr

/-- End tags consumed by `end_tag` (`pulldown_cmark::TagEnd`). -/
inductive TagEnd
  | Paragraph
  | Heading (level : HeadingLevel)
  | BlockQuote
  | CodeBlock
  | HtmlBlock
  | List
  | Item
  | FootnoteDefinition
  | Table
  | TableHead
  | TableRow
  | TableCell
  | Subscript
  | Superscript
  | Emphasis
  | Strong
  | Strikethrough
  | Link
  | Image
  | MetadataBlock
  | DefinitionList
  | DefinitionListTitle
  | DefinitionListDefinition
deriving DecidableEq, Repr

/-- The `pulldown_cmark::Event` variants matched in `Converter::go`. -/
inductive Event
  | Start (tag : Tag)
  | End (tag : TagEnd)
  | Text (s : Str)
  | Code (s : Str)
  | InlineMath (s : Str)
  | DisplayMath (s : Str)
  | Html (s : Str)
  | InlineHtml (s : Str)
  | FootnoteReference (s : Str)
  | SoftBreak
  | HardBreak
  | Rule
  | TaskListMarker (checked : Bool)
deriving DecidableEq, Repr

/-- `struct ListState`.  `items` holds the number of `ItemMarker`s pushed:
the fields of `ItemMarker` (`chunk_idx`, `start`, `end`, `indent_len`) are
written but never read anywhere in the crate, so only `items.len()` matters
(it is read twice: in `list_prefix` and in the `TagEnd::List` handler). -/
structure ListState where
  ordered : Bool
  start : Nat
  items : Nat
  extra_levels : Nat
deriving DecidableEq, Repr

/-- `ListState::new(n, extra_levels)`. -/
def ListState.new (n : Option Nat) (extra : Nat) : ListState :=
  { ordered := n.isSome, start := n.getD 1, items := 0, extra_levels := extra }

/-- Working state of one conversion: the fields of `struct Converter` other
than `max_len` (never written after construction, passed as a parameter
here), `list` (a dead field: written, never read), and `buffer` (a scratch
`String` reused to avoid reallocation, always emptied before and after use).
`result` is represented as the finished chunks `done` plus the in-progress
last chunk `cur`; `Converter::go` pushes the first (empty) chunk before the
event loop and chunks are never popped, so `result = done ++ [cur]`
throughout.  The stack fields keep the Rust `Vec` top as the list head. -/
structure WState where
  done : List Str
  cur : Str
  stack : List Descriptor
  add_new_line : Bool
  quote_level : Nat
  list_stack : List ListState
  carry_list_indent_levels : Nat
  afterListPref : Bool
  link_dest_url : Str
  skip_depth : Nat
deriving DecidableEq, Repr

/-- The working state right after `Converter::go` resets `self` and pushes
the first empty chunk. -/
def initWState : WState :=
  { done := [], cur := [], stack := [], add_new_line := false, quote_level := 0,
    list_stack := [], carry_list_indent_levels := 0, afterListPref := false,
    link_dest_url := [], skip_depth := 0 }

/-- `pending_prefix_len` (lib.rs lines 380-392). -/
def pendingPrefixLen (st : WState) : Nat :=
  if st.add_new_line then
    1 + (if st.quote_level > 0 then st.quote_level else 0)
  else if st.cur.isEmpty && st.quote_level > 0 then st.quote_level
  else 0

/-- `flush_pending_prefix` (lib.rs lines 395-406): emit the pending newline
plus `quote_level` many `>` characters into the current chunk. -/
def commitPending (st : WState) : WState :=
  if st.add_new_line then
    { st with cur := st.cur ++ '\n' :: List.replicate st.quote_level '>',
              add_new_line := false }
  else if st.cur.isEmpty && st.quote_level > 0 then
    { st with cur := st.cur ++ List.replicate st.quote_level '>' }
  else st

/-- `write_closers`: append each open scope's close marker to the current
chunk, innermost (stack top) first. -/
def write_closers (st : WState) : WState :=
  if st.stack.isEmpty then st
  else { st with cur := st.cur ++ (st.stack.map descriptor_closer).flatten }

/-- `closers_len(skip_top)`: summed byte length of the close markers of the
open scopes, optionally skipping the top of the stack. -/
def closers_len (st : WState) (skipTop : Bool) : Nat :=
  (((if skipTop then st.stack.drop 1 else st.stack).map descriptor_closer).map utf8Len).sum

/-- `list_prefix` (lib.rs lines 460-472): the marker text of a new list item
and its indentation width.  Reads the top of `list_stack`; mutates nothing
(the `items` push happens later, in the `Tag::Item` handler). -/
def listPref (st : WState) : Str × Nat :=
  let baseLevels := st.list_stack.length - 1
  let extraLevels := (st.list_stack.head?.map ListState.extra_levels).getD 0
  let indentLen := (baseLevels + extraLevels) * 2
  let indent : Str := List.replicate indentLen ' '
  match st.list_stack.head? with
  | some state =>
      if state.ordered then
        (indent ++ (Nat.toDigits 10 (state.start + state.items)) ++ ". ".toList, indentLen)
      else (indent ++ "⦁ ".toList, indentLen)
  | none => (indent ++ "⦁ ".toList, indentLen)

/-- Abnormal outcomes while emitting: the fuel of the embedding ran out
(modelling non-termination of the Rust loops), or the Rust code panicked. -/
inductive Abort
  | fuelOut
  | panicked
deriving DecidableEq, Repr

/-- One call frame of the mutually recursive emit machinery of the source:
`ows` is the loop of `output_with_skip` (lines 304-377), `ul` the loop of
`output_unbreakable` (lines 248-295), `sc` is `split_chunk` (408-418), `rd`
is `reopen_descriptors` (431-450) and `rl` its `for desc in descriptors`
loop.  A single dispatcher recursing structurally on fuel keeps the
definition kernel-computable. -/
inductive EmitCall
  | ows (remaining : Str) (skipTop : Bool)
  | ul (remaining : Str)
  | sc
  | rd
  | rl (ds : List Descriptor)
deriving DecidableEq, Repr

/-- The emit machinery.  Every recursive call (a loop iteration or a call to
another of the five functions) steps the fuel down by one, so exhausted fuel
(`Abort.fuelOut`) at every fuel value denotes a diverging Rust loop. -/
def emitRun (ml : Nat) : Nat → EmitCall → WState → Except Abort WState
  | 0, _, _ => .error .fuelOut
  | fuel + 1, call, st =>
    match call with
    | .ows remaining skipTop =>
        if remaining.isEmpty then .ok st
        else
          let pending := pendingPrefixLen st
          let closers := closers_len st skipTop
          let currentLen := utf8Len st.cur
          if currentLen + pending + closers ≥ ml then
            (emitRun ml fuel .sc st).bind fun st => emitRun ml fuel (.ows remaining skipTop) st
          else
            let available := ml - currentLen - pending - closers
            if available = 0 then
              (emitRun ml fuel .sc st).bind fun st => emitRun ml fuel (.ows remaining skipTop) st
            else
              let takeWs := split_point remaining available
              let take := if takeWs = 0 then available else takeWs
              let forced := takeWs = 0
              match splitAtBytes remaining take with
              | none => .error .panicked
              | some (part0, rest0) =>
                let st := commitPending st
                let pr : Str × Str :=
                  if rest0.isEmpty || forced then (part0, rest0)
                  else (trimEndSoft part0, trimStartSoft rest0)
                if pr.1.isEmpty then emitRun ml fuel (.ows pr.2 skipTop) st
                else
                  let st := { st with cur := st.cur ++ pr.1 }
                  if pr.2.isEmpty then .ok st
                  else (emitRun ml fuel .sc st).bind fun st => emitRun ml fuel (.ows pr.2 skipTop) st
    | .ul remaining =>
        if remaining.isEmpty then .ok st
        else
          let pending := pendingPrefixLen st
          let closers := closers_len st false
          let currentLen := utf8Len st.cur
          if currentLen + pending + closers ≥ ml then
            (emitRun ml fuel .sc st).bind fun st => emitRun ml fuel (.ul remaining) st
          else
            let available := ml - currentLen - pending - closers
            let take :=
              if utf8Len remaining ≤ available then utf8Len remaining
              else if utf8Len remaining > ml then available
              else 0
            if take = 0 then
              (emitRun ml fuel .sc st).bind fun st => emitRun ml fuel (.ul remaining) st
            else
              match splitAtBytes remaining take with
              | none => .error .panicked
              | some (part, rest) =>
                let st := commitPending st
                let st := { st with cur := st.cur ++ part }
                if rest.isEmpty then .ok st
                else (emitRun ml fuel .sc st).bind fun st => emitRun ml fuel (.ul rest) st
    | .sc =>
        let st := { st with cur := trimEndSoft st.cur }
        let st := write_closers st
        let st := { st with done := st.done ++ [st.cur], cur := [], add_new_line := false }
        emitRun ml fuel .rd st
    | .rd =>
        if st.stack.isEmpty then .ok st
        else emitRun ml fuel (.rl st.stack.reverse) st
    | .rl [] => .ok st
    | .rl (d :: ds) =>
        (match d with
         | .Strong => emitRun ml fuel (.ows "*".toList false) st
         | .Emphasis => emitRun ml fuel (.ows "_".toList false) st
         | .Strikethrough => emitRun ml fuel (.ows "~~".toList false) st
         | .Code => emitRun ml fuel (.ows "`".toList false) st
         | .CodeBlock lang =>
             ((emitRun ml fuel (.ows "```".toList false) st).bind fun st =>
               emitRun ml fuel (.ows (escapeStr lang) false) st).map
               fun (st : WState) => { st with add_new_line := true }
        ).bind fun st => emitRun ml fuel (.rl ds) st

/-- `output_with_skip(txt, escape, skip_top)`: escape once, then run the
splitting loop. -/
def output_with_skip (fuel ml : Nat) (txt : Str) (escape skipTop : Bool) (st : WState) :
    Except Abort WState :=
  emitRun ml fuel (.ows (if escape then escapeStr txt else txt) skipTop) st

/-- `output(txt, escape)`. -/
def output (fuel ml : Nat) (txt : Str) (escape : Bool) (st : WState) : Except Abort WState :=
  output_with_skip fuel ml txt escape false st

/-- `output_closing(txt, escape)`: as `output` but without reserving space
for the top descriptor's own closer. -/
def output_closing (fuel ml : Nat) (txt : Str) (escape : Bool) (st : WState) :
    Except Abort WState :=
  output_with_skip fuel ml txt escape true st

/-- `output_unbreakable(txt, escape)`. -/
def output_unbreakable (fuel ml : Nat) (txt : Str) (escape : Bool) (st : WState) :
    Except Abort WState :=
  emitRun ml fuel (.ul (if escape then escapeStr txt else txt)) st

/-- `split_chunk()`. -/
def split_chunk (fuel ml : Nat) (st : WState) : Except Abort WState :=
  emitRun ml fuel .sc st

/-- `new_line` (lib.rs lines 212-233). -/
def new_line (fuel ml : Nat) (st : WState) : Except Abort WState :=
  let st := { st with afterListPref := false }
  let lastLen := utf8Len st.cur
  if lastLen = 0 then .ok st
  else if lastLen + (1 + st.quote_level) > ml then split_chunk fuel ml st
  else .ok { st with cur := st.cur ++ '\n' :: List.replicate st.quote_level '>' }

/-- `close_descriptor(descriptor)` (lib.rs lines 797-802): pop the stack —
`expect` panics on an empty stack — and `assert_eq!` the kinds, where both a
kind mismatch (via the `unimplemented!()` in `PartialEq`) and a failed
assertion panic. -/
def close_descriptor (d : Descriptor) (st : WState) : Except Abort WState :=
  match st.stack with
  | [] => .error .panicked
  | top :: rest => if sameKind top d then .ok { st with stack := rest } else .error .panicked

/-- The `[escaped-title](escaped-url)` string built in the `Event::Text`
handler when a link destination is pending (lib.rs lines 108-113). -/
def linkForm (title url : Str) : Str :=
  "[".toList ++ escapeStr title ++ "](".toList ++ escapeStr url ++ ")".toList

/-- The `[Image](escaped-url)` placeholder built in the `Tag::Image` handler
(lib.rs lines 646-657): the fixed title `Image` followed by the destination
URL pushed through the same `push_escaped` as link URLs. -/
def imageForm (url : Str) : Str :=
  "[Image](".toList ++ escapeStr url ++ ")".toList

/-- `start_tag` (lib.rs lines 474-680). -/
def start_tag (fuel ml : Nat) (tag : Tag) (st : WState) : Except Abort WState :=
  let st :=
    match tag with
    | .List _ => st
    | _ => { st with carry_list_indent_levels := 0 }
  match tag with
  | .Paragraph =>
      if st.afterListPref then .ok { st with afterListPref := false }
      else new_line fuel ml st
  | .Heading lvl => do
      let st ← new_line fuel ml st
      match lvl with
      | .H1 => output fuel ml "*🌟 ".toList false st
      | .H2 => output fuel ml "*⭐ ".toList false st
      | .H3 => output fuel ml "*✨ ".toList false st
      | .H4 => output fuel ml "*🔸 ".toList false st
      | .H5 => output fuel ml "_🔹 ".toList false st
      | .H6 => output fuel ml "_✴️ ".toList false st
  | .BlockQuote => .ok { st with quote_level := st.quote_level + 1 }
  | .CodeBlock kind => do
      let lang := match kind with
        | .Fenced l => l
        | .Indented => []
      let currentLen := utf8Len st.cur
      let pending := pendingPrefixLen st
      let headerLen := 3 + utf8Len lang
      let remainingAfterStructure := ml - (currentLen + pending + headerLen + 3)
      let st ←
        if currentLen > 0 && remainingAfterStructure < 4 then split_chunk fuel ml st
        else .ok st
      let st ← output fuel ml "```".toList false st
      let st ← output fuel ml lang true st
      .ok { st with add_new_line := true, stack := .CodeBlock lang :: st.stack }
  | .HtmlBlock => .ok st
  | .List n =>
      let extra := if st.list_stack.isEmpty then st.carry_list_indent_levels else 0
      .ok { st with list_stack := ListState.new n extra :: st.list_stack,
                    carry_list_indent_levels := 0 }
  | .Item => do
      let hasExtraIndent := (st.list_stack.head?.map fun s => decide (s.extra_levels > 0)).getD false
      let st ←
        if st.add_new_line &&
            (decide (st.list_stack.length > 1) || decide (st.carry_list_indent_levels > 0) ||
              hasExtraIndent) then
          .ok (commitPending st)
        else new_line fuel ml st
      let pr := listPref st
      let pending := pendingPrefixLen st
      let closersL := closers_len st false
      let currentLen := utf8Len st.cur
      let st ←
        if currentLen + pending + closersL + utf8Len pr.1 ≥ ml then split_chunk fuel ml st
        else .ok st
      let st := commitPending st
      let st := { st with cur := st.cur ++ pr.1 }
      let st := { st with list_stack :=
        match st.list_stack with
        | s :: rest => (if s.ordered then { s with items := s.items + 1 } else s) :: rest
        | [] => [] }
      .ok { st with afterListPref := true }
  | .FootnoteDefinition | .Table | .TableHead | .TableRow | .TableCell
  | .Subscript | .Superscript => .ok st
  | .Emphasis => do
      let st ← output fuel ml "_".toList false st
      .ok { st with stack := .Emphasis :: st.stack }
  | .Strong => do
      let st ← output fuel ml "*".toList false st
      .ok { st with stack := .Strong :: st.stack }
  | .Strikethrough => do
      let st ← output fuel ml "~~".toList false st
      .ok { st with stack := .Strikethrough :: st.stack }
  | .Link dest =>
      if st.link_dest_url.isEmpty then .ok { st with link_dest_url := dest }
      else .error .panicked
  | .Image dest => do
      let st ← output_unbreakable fuel ml (imageForm dest) false st
      .ok { st with skip_depth := 1 }
  | .MetadataBlock | .DefinitionList | .DefinitionListTitle
  | .DefinitionListDefinition => .ok st

/-- `end_tag` (lib.rs lines 682-795). -/
def end_tag (fuel ml : Nat) (tag : TagEnd) (st : WState) : Except Abort WState :=
  match tag with
  | .Paragraph => .ok { st with add_new_line := true }
  | .Heading lvl => do
      let st ←
        match lvl with
        | .H1 | .H2 | .H3 | .H4 => output_closing fuel ml "*".toList false st
        | .H5 | .H6 => output_closing fuel ml "_".toList false st
      .ok { st with add_new_line := true }
  | .BlockQuote =>
      if st.quote_level = 0 then .error .panicked
      else .ok { st with add_new_line := true, quote_level := st.quote_level - 1 }
  | .CodeBlock => do
      let st ← output_closing fuel ml "```".toList false st
      close_descriptor (.CodeBlock []) { st with add_new_line := true }
  | .HtmlBlock => .ok st
  | .List =>
      (match st.list_stack with
       | state :: rest =>
           let st := { st with list_stack := rest }
           let st :=
             if state.ordered && state.items = 1 && rest.isEmpty then
               { st with carry_list_indent_levels := 1 }
             else if rest.isEmpty then { st with carry_list_indent_levels := 0 }
             else st
           .ok { st with add_new_line := true, afterListPref := false }
       | [] => .ok { st with add_new_line := true, afterListPref := false })
  | .Item => .ok st
  | .FootnoteDefinition | .Table | .TableHead | .TableRow | .TableCell
  | .Subscript | .Superscript => .ok st
  | .Emphasis => do
      let st ← output_closing fuel ml "_".toList false st
      close_descriptor .Emphasis st
  | .Strong => do
      let st ← output_closing fuel ml "*".toList false st
      close_descriptor .Strong st
  | .Strikethrough => do
      let st ← output_closing fuel ml "~~".toList false st
      close_descriptor .Strikethrough st
  | .Link => .ok st
  | .Image => .ok st
  | .MetadataBlock | .DefinitionList | .DefinitionListTitle
  | .DefinitionListDefinition => .ok st

/-- The event loop of `Converter::go` (lib.rs lines 87-192), including the
`skip_depth` short-circuit used to drop image alt-text events. -/
def processEvents (fuel ml : Nat) : List Event → WState → Except Abort WState
  | [], st => .ok st
  | ev :: rest, st =>
      if st.skip_depth > 0 then
        let st :=
          match ev with
          | .Start _ => { st with skip_depth := st.skip_depth + 1 }
          | .End _ => { st with skip_depth := st.skip_depth - 1 }
          | _ => st
        processEvents fuel ml rest st
      else
        (match ev with
         | .Start tag => start_tag fuel ml tag st
         | .End tag => end_tag fuel ml tag st
         | .Text txt =>
             if st.link_dest_url.isEmpty then output fuel ml txt true st
             else do
               let st' ← output_unbreakable fuel ml (linkForm txt st.link_dest_url) false st
               .ok { st' with link_dest_url := [] }
         | .Code txt => do
             let st := { st with stack := .Code :: st.stack }
             let st ← output fuel ml "`".toList false st
             let st ← output fuel ml txt true st
             let st ← output_closing fuel ml "`".toList false st
             close_descriptor .Code st
         | .InlineMath txt | .DisplayMath txt | .Html txt | .InlineHtml txt
         | .FootnoteReference txt => output fuel ml txt true st
         | .SoftBreak | .HardBreak => .ok { st with add_new_line := true }
         | .Rule => do
             let st ← new_line fuel ml st
             let st ← output fuel ml "————————".toList true st
             .ok { st with add_new_line := true }
         | .TaskListMarker checked => do
             let st ← new_line fuel ml st
             if checked then output fuel ml "☑️".toList false st
             else output fuel ml "☐".toList false st
        ).bind (processEvents fuel ml rest)

/-- The two `anyhow::Error` values `Converter::go` can return. -/
inductive ConvError
  | unbalancedTags
  | chunkExceedsMaxLen
deriving DecidableEq, Repr

/-- Observable outcome of one `Converter::go` call. -/
inductive GoResult
  | ok (chunks : List Str)
  | error (e : ConvError)
  | panicked
  | outOfFuel
deriving DecidableEq, Repr

/-- The checks after the event loop (lib.rs lines 194-209): unbalanced-stack
error, then the per-chunk `max_len` guard, then `Ok(result)`. -/
def finalize (ml : Nat) (st : WState) : GoResult :=
  if !st.stack.isEmpty then .error .unbalancedTags
  else
    let chunks := st.done ++ [st.cur]
    if chunks.any (fun c => utf8Len c > ml) then .error .chunkExceedsMaxLen
    else .ok chunks

/-- `struct Converter` as visible across calls (without the dead `list`
field and the scratch `buffer`, see `WState`). -/
structure Converter where
  max_len : Nat
  result : List Str
  stack : List Descriptor
  add_new_line : Bool
  quote_level : Nat
  list_stack : List ListState
  carry_list_indent_levels : Nat
  afterListPref : Bool
  link_dest_url : Str
  skip_depth : Nat
deriving DecidableEq, Repr

/-- `Converter::new(max_len)` (equivalently `Default` with `max_len`
overridden). -/
def Converter.new (ml : Nat) : Converter :=
  { max_len := ml, result := [], stack := [], add_new_line := false, quote_level := 0,
    list_stack := [], carry_list_indent_levels := 0, afterListPref := false,
    link_dest_url := [], skip_depth := 0 }

/-- `Converter::go` (lib.rs lines 76-210).  `markdown` is the raw input;
`events` stands for the stream `pulldown-cmark` produces for the trimmed
input (the parser is external to the repository).  Returns the result and
the converter as left behind by the call: `go` starts by resetting `self`
to `Self::new(self.max_len)`, and on success `mem::take` empties `result`.
For aborts (panic or exhausted fuel) the Rust caller never observes a
converter; the reset state stands in. -/
def Converter.go (c : Converter) (markdown : Str) (events : List Event) (fuel : Nat) :
    GoResult × Converter :=
  let ml := c.max_len
  let c0 := Converter.new ml
  let md := rustTrim markdown
  if md.isEmpty then (.ok [], c0)
  else
    match processEvents fuel ml events initWState with
    | .error .fuelOut => (.outOfFuel, c0)
    | .error .panicked => (.panicked, c0)
    | .ok st =>
        let res := finalize ml st
        (res,
         { max_len := ml,
           result := match res with
                     | .ok _ => []
                     | _ => st.done ++ [st.cur],
           stack := st.stack, add_new_line := st.add_new_line,
           quote_level := st.quote_level, list_stack := st.list_stack,
           carry_list_indent_levels := st.carry_list_indent_levels,
           afterListPref := st.afterListPref, link_dest_url := st.link_dest_url,
           skip_depth := st.skip_depth })

/-- The result of a `go` call on a freshly constructed converter with the
given `max_len` — the way the crate's tests call it. -/
def convGo (ml : Nat) (markdown : Str) (events : List Event) (fuel : Nat) : GoResult :=
  (Converter.go (Converter.new ml) markdown events fuel).1

/-! ## Derived definitions used to state the claims -/

/-- Number of occurrences of `c` in a string that are not preceded by an
(unconsumed) backslash — i.e. the occurrences a MarkdownV2 reader treats as
markup rather than escaped text.  Used to state the per-chunk balance claim:
a chunk in which some marker character occurs an odd number of unescaped
times cannot have equal multisets of open and close markers, since every
marker pair of this dialect contributes an even count (`*`/`*`, `_`/`_`,
`~~`/`~~`, `` ` ``/`` ` ``, fences). -/
def unescapedCount (c : Char) : Str → Nat
  | [] => 0
  | '\\' :: _ :: rest => unescapedCount c rest
  | x :: rest => (if x = c then 1 else 0) + unescapedCount c rest

/-- Modelled from the spec's words, for comparison with the code's
`push_escaped`: "escape_url(s): escapes only `(` and `)`".  The claim under
test says link destinations are escaped with this function. -/
def escape_url_spec (s : Str) : Str :=
  s.flatMap fun c => if c = '(' || c = ')' then ['\\', c] else [c]

/-- States visited forever by the `output_with_skip` loop on the C3 failing
input (`max_len = 1`, one open `Strong` scope). -/
def c3St (done : List Str) (cur : Str) : WState :=
  { done := done, cur := cur, stack := [.Strong], add_new_line := false,
    quote_level := 0, list_stack := [], carry_list_indent_levels := 0,
    afterListPref := false, link_dest_url := [], skip_depth := 0 }

/-- States visited forever by the `output_unbreakable` loop on the C5
failing input (`max_len = 10`, one open `Strong` scope, a pending link
destination). -/
def c5St (done : List Str) (cur : Str) : WState :=
  { done := done, cur := cur, stack := [.Strong], add_new_line := false,
    quote_level := 0, list_stack := [], carry_list_indent_levels := 0,
    afterListPref := false, link_dest_url := "zz".toList, skip_depth := 0 }

/-- The pure state transformation of `split_chunk` before it reopens the
descriptors: trim trailing soft whitespace, append the closers, push a new
empty chunk. -/
def scNext (st : WState) : WState :=
  let st := { st with cur := trimEndSoft st.cur }
  let st := write_closers st
  { st with done := st.done ++ [st.cur], cur := [], add_new_line := false }

/-! ## Small-step lemmas for the emit machinery -/

theorem utf8Len_cons (c : Char) (cs : Str) : utf8Len (c :: cs) = c.utf8Size + utf8Len cs := by
  simp [utf8Len]

theorem utf8Len_pos_of_ne_nil {s : Str} (h : s ≠ []) : 0 < utf8Len s := by
  cases s with
  | nil => exact absurd rfl h
  | cons c cs =>
      have := Char.utf8Size_pos c
      rw [utf8Len_cons]
      omega

theorem splitAtBytes_full (s : Str) : splitAtBytes s (utf8Len s) = some (s, []) := by
  induction s with
  | nil => rfl
  | cons c cs ih =>
      have hc := Char.utf8Size_pos c
      rw [utf8Len_cons]
      obtain ⟨m, hm⟩ : ∃ m, c.utf8Size + utf8Len cs = m + 1 :=
        ⟨c.utf8Size + utf8Len cs - 1, by omega⟩
      rw [hm, splitAtBytes, if_pos (by omega)]
      have h2 : m + 1 - c.utf8Size = utf8Len cs := by omega
      rw [h2, ih]
      rfl

theorem emitRun_zero (ml : Nat) (c : EmitCall) (st : WState) :
    emitRun ml 0 c st = .error .fuelOut := rfl

theorem emitRun_sc (ml n : Nat) (st : WState) :
    emitRun ml (n + 1) .sc st = emitRun ml n .rd (scNext st) := rfl

theorem emitRun_rd_cons (ml n : Nat) (st : WState) (h : st.stack.isEmpty = false) :
    emitRun ml (n + 1) .rd st = emitRun ml n (.rl st.stack.reverse) st := by
  simp [emitRun, h]

theorem emitRun_rl_nil (ml n : Nat) (st : WState) :
    emitRun ml (n + 1) (.rl []) st = .ok st := rfl

theorem emitRun_rl_strong (ml n : Nat) (ds : List Descriptor) (st : WState) :
    emitRun ml (n + 1) (.rl (.Strong :: ds)) st =
      (emitRun ml n (.ows "*".toList false) st).bind
        fun st => emitRun ml n (.rl ds) st := rfl

theorem emitRun_ows_overfull (ml n : Nat) (rem : Str) (skipTop : Bool) (st : WState)
    (hne : rem.isEmpty = false)
    (h : utf8Len st.cur + pendingPrefixLen st + closers_len st skipTop ≥ ml) :
    emitRun ml (n + 1) (.ows rem skipTop) st =
      (emitRun ml n .sc st).bind fun st => emitRun ml n (.ows rem skipTop) st := by
  simp [emitRun, hne, h]

theorem emitRun_ows_fit (ml n : Nat) (rem : Str) (skipTop : Bool) (st : WState)
    (hne : rem ≠ [])
    (hlt : utf8Len st.cur + pendingPrefixLen st + closers_len st skipTop < ml)
    (hfit : utf8Len rem ≤ ml - utf8Len st.cur - pendingPrefixLen st - closers_len st skipTop) :
    emitRun ml (n + 1) (.ows rem skipTop) st =
      .ok { commitPending st with cur := (commitPending st).cur ++ rem } := by
  have hne' : rem.isEmpty = false := by
    cases rem with
    | nil => exact absurd rfl hne
    | cons c cs => rfl
  have hpos : 0 < utf8Len rem := utf8Len_pos_of_ne_nil hne
  have hz : ¬(utf8Len rem = 0) := by omega
  have hsp : split_point rem (ml - utf8Len st.cur - pendingPrefixLen st - closers_len st skipTop)
      = utf8Len rem := by
    unfold split_point
    rw [if_pos hfit]
  have hsplit : splitAtBytes rem (utf8Len rem) = some (rem, []) := splitAtBytes_full rem
  simp only [emitRun, hne', hsp]
  rw [if_neg hz, hsplit]
  rw [if_neg (by omega : ¬ ml ≤ utf8Len st.cur + pendingPrefixLen st + closers_len st skipTop)]
  rw [if_neg (by omega : ¬ ml - utf8Len st.cur - pendingPrefixLen st - closers_len st skipTop = 0)]
  simp [hne']

theorem emitRun_ul_overfull (ml n : Nat) (rem : Str) (st : WState)
    (hne : rem.isEmpty = false)
    (h : utf8Len st.cur + pendingPrefixLen st + closers_len st false ≥ ml) :
    emitRun ml (n + 1) (.ul rem) st =
      (emitRun ml n .sc st).bind fun st => emitRun ml n (.ul rem) st := by
  simp [emitRun, hne, h]

theorem emitRun_ul_defer (ml n : Nat) (rem : Str) (st : WState)
    (hne : rem.isEmpty = false)
    (hlt : utf8Len st.cur + pendingPrefixLen st + closers_len st false < ml)
    (hbig : ¬ utf8Len rem ≤ ml - utf8Len st.cur - pendingPrefixLen st - closers_len st false)
    (hsmall : ¬ utf8Len rem > ml) :
    emitRun ml (n + 1) (.ul rem) st =
      (emitRun ml n .sc st).bind fun st => emitRun ml n (.ul rem) st := by
  simp only [emitRun, hne]
  rw [if_neg (by omega : ¬ ml ≤ utf8Len st.cur + pendingPrefixLen st + closers_len st false)]
  rw [if_neg hbig, if_neg hsmall]
  simp

theorem utf8Len_nil : utf8Len [] = 0 := rfl

theorem emitRun_ul_fit (ml n : Nat) (rem : Str) (st : WState)
    (hne : rem ≠ [])
    (hlt : utf8Len st.cur + pendingPrefixLen st + closers_len st false < ml)
    (hfit : utf8Len rem ≤ ml - utf8Len st.cur - pendingPrefixLen st - closers_len st false) :
    emitRun ml (n + 1) (.ul rem) st =
      .ok { commitPending st with cur := (commitPending st).cur ++ rem } := by
  have hne' : rem.isEmpty = false := by
    cases rem with
    | nil => exact absurd rfl hne
    | cons c cs => rfl
  have hpos : 0 < utf8Len rem := utf8Len_pos_of_ne_nil hne
  have hsplit : splitAtBytes rem (utf8Len rem) = some (rem, []) := splitAtBytes_full rem
  simp only [emitRun, hne', hfit, if_true, if_pos hfit]
  rw [if_neg (by omega : ¬ ml ≤ utf8Len st.cur + pendingPrefixLen st + closers_len st false)]
  rw [if_neg (by omega : ¬ utf8Len rem = 0), hsplit]
  simp [hne']

/-! ## From `processEvents` outcomes to `Converter.go` results -/

theorem convGo_of_fuelOut (ml : Nat) (md : Str) (ev : List Event) (fuel : Nat)
    (hmd : (rustTrim md).isEmpty = false)
    (h : processEvents fuel ml ev initWState = .error .fuelOut) :
    convGo ml md ev fuel = .outOfFuel := by
  unfold convGo Converter.go
  simp [Converter.new, hmd, h]

theorem convGo_of_panicked (ml : Nat) (md : Str) (ev : List Event) (fuel : Nat)
    (hmd : (rustTrim md).isEmpty = false)
    (h : processEvents fuel ml ev initWState = .error .panicked) :
    convGo ml md ev fuel = .panicked := by
  unfold convGo Converter.go
  simp [Converter.new, hmd, h]

theorem convGo_of_ok (ml : Nat) (md : Str) (ev : List Event) (fuel : Nat) (st : WState)
    (hmd : (rustTrim md).isEmpty = false)
    (h : processEvents fuel ml ev initWState = .ok st) :
    convGo ml md ev fuel = finalize ml st := by
  unfold convGo Converter.go
  simp [Converter.new, hmd, h]

theorem finalize_ok_bound {ml : Nat} {st : WState} {chunks : List Str}
    (h : finalize ml st = .ok chunks) : ∀ c ∈ chunks, utf8Len c ≤ ml := by
  unfold finalize at h
  split at h
  · simp at h
  · dsimp only [] at h
    split at h
    · simp at h
    · next hany =>
      injection h with h
      subst h
      intro c hc
      rw [List.any_eq_true] at hany
      by_contra hlt
      exact hany ⟨c, hc, by simpa using Nat.lt_of_not_le hlt⟩

theorem finalize_ok_shape {ml : Nat} {st : WState} {chunks : List Str}
    (h : finalize ml st = .ok chunks) : chunks = st.done ++ [st.cur] := by
  unfold finalize at h
  split at h
  · simp at h
  · dsimp only [] at h
    split at h
    · simp at h
    · injection h with h
      exact h.symm

theorem go_state_max_len (c : Converter) (md : Str) (ev : List Event) (fuel : Nat) :
    ((Converter.go c md ev fuel).2).max_len = c.max_len := by
  unfold Converter.go
  dsimp only []
  split
  · rfl
  · split <;> rfl

theorem go_only_uses_max_len (c₁ c₂ : Converter) (md : Str) (ev : List Event) (fuel : Nat)
    (h : c₁.max_len = c₂.max_len) :
    Converter.go c₁ md ev fuel = Converter.go c₂ md ev fuel := by
  unfold Converter.go
  rw [h]

/-! ## Divergence of the emit loops on the C3 and C5 failing inputs -/

theorem c3_ows_div (f : Nat) :
    ∀ (done : List Str) (cur rem : Str), rem ≠ [] →
      emitRun 1 f (.ows rem false) (c3St done cur) = .error .fuelOut := by
  induction f using Nat.strong_induction_on with
  | _ f ih =>
    intro done cur rem hrem
    cases f with
    | zero => rfl
    | succ n =>
      have hne' : rem.isEmpty = false := by
        cases rem with
        | nil => exact absurd rfl hrem
        | cons c cs => rfl
      have hp : pendingPrefixLen (c3St done cur) = 0 := by simp [pendingPrefixLen, c3St]
      have hc : closers_len (c3St done cur) false = 1 := by
        simp [closers_len, c3St, descriptor_closer, utf8Len]
        decide
      rw [emitRun_ows_overfull 1 n rem false _ hne' (by rw [hp, hc]; omega)]
      cases n with
      | zero => rfl
      | succ m =>
        rw [emitRun_sc]
        have hsc : scNext (c3St done cur) =
            c3St (done ++ [trimEndSoft cur ++ "*".toList]) [] := by
          simp [scNext, c3St, write_closers, descriptor_closer]
        rw [hsc]
        cases m with
        | zero => rfl
        | succ k =>
          rw [emitRun_rd_cons _ _ _ (by simp [c3St])]
          have hrev : (c3St (done ++ [trimEndSoft cur ++ "*".toList]) []).stack.reverse
              = [.Strong] := by simp [c3St]
          rw [hrev]
          cases k with
          | zero => rfl
          | succ j =>
            rw [emitRun_rl_strong]
            rw [ih j (by omega) _ [] "*".toList (by simp)]
            rfl

theorem c5_ul_div (f : Nat) :
    ∀ (done : List Str) (cur : Str), cur ≠ [] →
      emitRun 10 f (.ul (linkForm "abc".toList "zz".toList)) (c5St done cur)
        = .error .fuelOut := by
  have hlf : utf8Len (linkForm "abc".toList "zz".toList) = 9 := by decide
  have hlfne : (linkForm "abc".toList "zz".toList).isEmpty = false := by decide
  induction f using Nat.strong_induction_on with
  | _ f ih =>
    intro done cur hcur
    cases f with
    | zero => rfl
    | succ n =>
      have hcpos : 0 < utf8Len cur := utf8Len_pos_of_ne_nil hcur
      have hp : pendingPrefixLen (c5St done cur) = 0 := by simp [pendingPrefixLen, c5St]
      have hc : closers_len (c5St done cur) false = 1 := by
        simp [closers_len, c5St, descriptor_closer, utf8Len]
        decide
      have hbind :
          emitRun 10 (n+1) (.ul (linkForm "abc".toList "zz".toList)) (c5St done cur) =
            (emitRun 10 n .sc (c5St done cur)).bind
              fun st => emitRun 10 n (.ul (linkForm "abc".toList "zz".toList)) st := by
        by_cases hcond : utf8Len (c5St done cur).cur + pendingPrefixLen (c5St done cur)
            + closers_len (c5St done cur) false ≥ 10
        · exact emitRun_ul_overfull 10 n _ _ hlfne hcond
        · refine emitRun_ul_defer 10 n _ _ hlfne (by omega) ?_ (by omega)
          have hcc : utf8Len (c5St done cur).cur = utf8Len cur := rfl
          rw [hlf, hcc, hp, hc]
          omega
      rw [hbind]
      cases n with
      | zero => rfl
      | succ m =>
        rw [emitRun_sc]
        have hsc : scNext (c5St done cur) =
            c5St (done ++ [trimEndSoft cur ++ "*".toList]) [] := by
          simp [scNext, c5St, write_closers, descriptor_closer]
        rw [hsc]
        cases m with
        | zero => rfl
        | succ k =>
          rw [emitRun_rd_cons _ _ _ (by simp [c5St])]
          have hrev : (c5St (done ++ [trimEndSoft cur ++ "*".toList]) []).stack.reverse
              = [.Strong] := by simp [c5St]
          rw [hrev]
          cases k with
          | zero => rfl
          | succ j =>
            rw [emitRun_rl_strong]
            cases j with
            | zero => rfl
            | succ i =>
              rw [emitRun_ows_fit 10 i "*".toList false _ (by simp)
                (by simp [pendingPrefixLen, closers_len, c5St, descriptor_closer, utf8Len]
                    decide)
                (by simp [pendingPrefixLen, closers_len, c5St, descriptor_closer, utf8Len]
                    decide)]
              have hcp : commitPending (c5St (done ++ [trimEndSoft cur ++ "*".toList]) []) =
                  c5St (done ++ [trimEndSoft cur ++ "*".toList]) [] := by
                simp [commitPending, c5St]
              rw [hcp]
              have hok : ({ c5St (done ++ [trimEndSoft cur ++ "*".toList]) [] with
                  cur := (c5St (done ++ [trimEndSoft cur ++ "*".toList]) []).cur ++ "*".toList } :
                    WState) = c5St (done ++ [trimEndSoft cur ++ "*".toList]) "*".toList := by
                simp [c5St]
              rw [hok]
              have hrl : emitRun 10 (i+1) (.rl [])
                  (c5St (done ++ [trimEndSoft cur ++ "*".toList]) "*".toList) =
                  .ok (c5St (done ++ [trimEndSoft cur ++ "*".toList]) "*".toList) := rfl
              simp only [Except.bind]
              rw [hrl]
              simp only [Except.bind]
              rw [ih (i+1+1+1+1) (by omega) _ "*".toList (by simp)]

/-! ## The claims -/

/-- C1: for every event stream, every raw input, every `max_len` and every
fuel, when `Converter::go` returns `Ok(chunks)`, every chunk's byte length
is at most `max_len`.  This holds by the final guard of `go` (lib.rs lines
198-207), which turns any over-long chunk into an `Err` instead. -/
theorem c1_ok_chunks_within_max_len (ml fuel : Nat) (md : Str) (ev : List Event)
    (chunks : List Str) (h : convGo ml md ev fuel = .ok chunks) :
    ∀ c ∈ chunks, utf8Len c ≤ ml := by
  unfold convGo Converter.go at h
  dsimp only [Converter.new] at h
  split at h
  · injection h with h
    subst h
    simp
  · split at h
    · simp at h
    · simp at h
    · next st heq =>
      dsimp only [] at h
      exact finalize_ok_bound h

/-- Witness for C1 at a concrete input. -/
theorem c1_witness :
    convGo 30 "hi".toList [.Start .Paragraph, .Text "hi".toList, .End .Paragraph] 50
      = .ok ["hi".toList] ∧ utf8Len "hi".toList ≤ 30 :=
  ⟨by decide,
   c1_ok_chunks_within_max_len 30 50 "hi".toList
     [.Start .Paragraph, .Text "hi".toList, .End .Paragraph] ["hi".toList]
     (by decide) "hi".toList (by decide)⟩

/-- C2: the per-chunk balance claim fails on headings.  On `# aaaaa bbbbb`
with `max_len = 10` the conversion returns `Ok` with a first chunk
`*🌟 aaaa` that contains exactly one unescaped `*`: the heading open marker
is emitted without pushing any descriptor, so `split_chunk` neither closes
it at the chunk boundary nor reopens it, and its closing `*` lands in the
second chunk (`a bbbbb*`).  An odd unescaped count makes equal open/close
marker multisets impossible inside the first chunk. -/
theorem c2_heading_chunk_unbalanced :
    convGo 10 "# aaaaa bbbbb".toList
      [.Start (.Heading .H1), .Text "aaaaa bbbbb".toList, .End (.Heading .H1)] 50
      = .ok ["*🌟 aaaa".toList, "a bbbbb*".toList] ∧
    unescapedCount '*' "*🌟 aaaa".toList = 1 := by
  constructor
  · decide
  · decide

/-- C3: termination fails.  With `max_len = 1` and input `**a**`, emitting
the bold text forces a chunk split; reopening the `*` marker in the fresh
chunk again finds `closers_len = 1 ≥ max_len`, splits again, and so on
forever (`split_chunk → reopen_descriptors → output → split_chunk`).  In
the fuel model: the run exhausts every fuel value. -/
theorem c3_go_diverges_maxlen_one :
    ∀ fuel, convGo 1 "**a**".toList
      [.Start .Paragraph, .Start .Strong, .Text "a".toList, .End .Strong, .End .Paragraph]
      fuel = .outOfFuel := by
  intro fuel
  cases fuel with
  | zero => decide
  | succ n =>
    refine convGo_of_fuelOut _ _ _ _ (by decide) ?_
    have hstep : processEvents (n+1) 1
        [.Start .Paragraph, .Start .Strong, .Text "a".toList, .End .Strong, .End .Paragraph]
        initWState =
        (emitRun 1 (n+1) (.ows "a".toList false) (c3St [] "*".toList)).bind
          (processEvents (n+1) 1 [.End .Strong, .End .Paragraph]) := rfl
    rw [hstep, c3_ows_div (n+1) [] "*".toList "a".toList (by simp)]
    rfl

/-- C4 counterexample: the URL part of an emitted link is escaped with the
full MarkdownV2 set (`push_escaped`), not with the parenthesis-only
`escape_url` the claim describes: for the URL `a.b` the code emits
`[t](a\.b)`, while the claim predicts `[t](a.b)`. -/
theorem c4_url_escape_counterexample :
    convGo 100 "[t](a.b)".toList
      [.Start .Paragraph, .Start (.Link "a.b".toList), .Text "t".toList, .End .Link,
       .End .Paragraph] 50
      = .ok ["[t](a\\.b)".toList] ∧
    "[t](a\\.b)".toList ≠
      "[".toList ++ escapeStr "t".toList ++ "](".toList ++ escape_url_spec "a.b".toList
        ++ ")".toList := by
  constructor
  · decide
  · decide

/-- C4 amended: both link and image destination URLs are escaped with the
full `push_escaped` table (backslash before each of `\ * _ [ ] ( ) ~ \x60 >
# + - = | \x7b \x7d . !`), not with a parenthesis-only escape.  For every
link with non-empty destination the emitted form is
`[escaped(title)](escaped(url))`, for every image it is
`[Image](escaped(url))`, and each form is emitted as one piece whenever it
fits in `max_len`. -/
theorem c4_link_and_image_url_fully_escaped (title url : Str) (ml fuel : Nat)
    (hurl : url ≠ [])
    (hfitL : utf8Len (linkForm title url) ≤ ml)
    (hfitI : utf8Len (imageForm url) ≤ ml) :
    convGo ml "x".toList
      [.Start .Paragraph, .Start (.Link url), .Text title, .End .Link, .End .Paragraph]
      (fuel + 1) = .ok [linkForm title url] ∧
    convGo ml "x".toList
      [.Start .Paragraph, .Start (.Image url), .End .Image, .End .Paragraph]
      (fuel + 1) = .ok [imageForm url] := by
  constructor
  · have hlfne : linkForm title url ≠ [] := by
      simp [linkForm]
    have hml : 0 < ml := Nat.lt_of_lt_of_le (utf8Len_pos_of_ne_nil hlfne) hfitL
    have hurl' : url.isEmpty = false := by
      cases url with
      | nil => exact absurd rfl hurl
      | cons a l => rfl
    have h1 : processEvents (fuel+1) ml
        [.Start .Paragraph, .Start (.Link url), .Text title, .End .Link, .End .Paragraph]
        initWState
        = processEvents (fuel+1) ml [.Text title, .End .Link, .End .Paragraph]
            { initWState with link_dest_url := url } := rfl
    have hul : emitRun ml (fuel+1) (.ul (linkForm title url))
        { initWState with link_dest_url := url }
        = .ok { initWState with link_dest_url := url, cur := linkForm title url } := by
      rw [emitRun_ul_fit ml fuel _ _ hlfne
        (by simp [pendingPrefixLen, closers_len, initWState, utf8Len_nil]; omega)
        (by simp [pendingPrefixLen, closers_len, initWState, utf8Len_nil]; omega)]
      simp [commitPending, initWState]
    have h2 : processEvents (fuel+1) ml [.Text title, .End .Link, .End .Paragraph]
        { initWState with link_dest_url := url }
        = .ok { initWState with cur := linkForm title url, add_new_line := true } := by
      simp only [initWState] at hul
      simp only [processEvents, initWState]
      simp [hurl', output_unbreakable, hul, end_tag, Bind.bind, Except.bind]
    rw [convGo_of_ok ml "x".toList _ (fuel+1) _ (by decide) (h1.trans h2)]
    unfold finalize
    simp [initWState, show ¬ ml < utf8Len (linkForm title url) from by omega]
  · have hifne : imageForm url ≠ [] := by
      simp [imageForm]
    have hml : 0 < ml := Nat.lt_of_lt_of_le (utf8Len_pos_of_ne_nil hifne) hfitI
    have h1 : processEvents (fuel+1) ml
        [.Start .Paragraph, .Start (.Image url), .End .Image, .End .Paragraph]
        initWState
        = processEvents (fuel+1) ml [.Start (.Image url), .End .Image, .End .Paragraph]
            initWState := rfl
    have hul : emitRun ml (fuel+1) (.ul (imageForm url)) initWState
        = .ok { initWState with cur := imageForm url } := by
      rw [emitRun_ul_fit ml fuel _ _ hifne
        (by simp [pendingPrefixLen, closers_len, initWState, utf8Len_nil]; omega)
        (by simp [pendingPrefixLen, closers_len, initWState, utf8Len_nil]; omega)]
      simp [commitPending, initWState]
    have h2 : processEvents (fuel+1) ml [.Start (.Image url), .End .Image, .End .Paragraph]
        initWState
        = .ok { initWState with cur := imageForm url, add_new_line := true } := by
      simp only [initWState] at hul
      simp only [processEvents, initWState, start_tag]
      simp [output_unbreakable, hul, end_tag, Bind.bind, Except.bind]
    rw [convGo_of_ok ml "x".toList _ (fuel+1) _ (by decide) (h1.trans h2)]
    unfold finalize
    simp [initWState, show ¬ ml < utf8Len (imageForm url) from by omega]

/-- Witness for C4's amended theorem at a concrete link and image whose
shared destination URL `a.b` exercises the escaping (`.` is in the escape
set but not a parenthesis). -/
theorem c4_link_and_image_url_fully_escaped_witness :
    "a.b".toList ≠ ([] : Str) ∧
    utf8Len (linkForm "t".toList "a.b".toList) ≤ 100 ∧
    utf8Len (imageForm "a.b".toList) ≤ 100 ∧
    (convGo 100 "x".toList
      [.Start .Paragraph, .Start (.Link "a.b".toList), .Text "t".toList, .End .Link,
       .End .Paragraph] (49 + 1) = .ok [linkForm "t".toList "a.b".toList] ∧
     convGo 100 "x".toList
      [.Start .Paragraph, .Start (.Image "a.b".toList), .End .Image, .End .Paragraph]
      (49 + 1) = .ok [imageForm "a.b".toList]) :=
  ⟨by decide, by decide, by decide,
   c4_link_and_image_url_fully_escaped "t".toList "a.b".toList 100 49
     (by decide) (by decide) (by decide)⟩

/-- C5: a link strictly shorter than `max_len` nested in open formatting is
neither emitted whole nor successfully deferred: after the deferring
`split_chunk`, the fresh chunk's budget (`max_len` minus the reopened `*`
and the reserved closer) is 8 < 9 bytes, so `output_unbreakable` splits
again forever and the conversion never returns.  In the fuel model the run
exhausts every fuel value. -/
theorem c5_nested_link_diverges :
    ∀ fuel, convGo 10 "**aaaa [abc](zz)**".toList
      [.Start .Paragraph, .Start .Strong, .Text "aaaa ".toList, .Start (.Link "zz".toList),
       .Text "abc".toList, .End .Link, .End .Strong, .End .Paragraph] fuel = .outOfFuel := by
  intro fuel
  cases fuel with
  | zero => decide
  | succ n =>
    refine convGo_of_fuelOut _ _ _ _ (by decide) ?_
    have hstep : processEvents (n+1) 10
        [.Start .Paragraph, .Start .Strong, .Text "aaaa ".toList, .Start (.Link "zz".toList),
         .Text "abc".toList, .End .Link, .End .Strong, .End .Paragraph] initWState =
        ((emitRun 10 (n+1) (.ul (linkForm "abc".toList "zz".toList))
            (c5St [] "*aaaa ".toList)).bind
          (fun st' => (Except.ok ({ st' with link_dest_url := [] } : WState)))).bind
          (processEvents (n+1) 10 [.End .Link, .End .Strong, .End .Paragraph]) := rfl
    rw [hstep, c5_ul_div (n+1) [] "*aaaa ".toList (by simp)]
    rfl

/-- C6 counterexample: an `End` event whose kind does not match the top of
the scope stack makes the conversion panic (`assert_eq!` through the
`unimplemented!()` in `PartialEq for Descriptor`), not return an `Err`. -/
theorem c6_mismatch_panics_not_err :
    convGo 100 "x".toList [.Start .Strong, .End .Emphasis] 50 = .panicked := by
  decide

/-- C6 amended: whenever the popped scope does not have the `End` event's
kind — the stack is empty, or its top is of a different kind —
`close_descriptor` aborts by panicking, never by returning an error value;
and whenever the scope stack is non-empty when the event stream ends, the
code after the event loop returns `Err("Unbalanced tags")`.  In neither
case does the caller receive a chunk list.  The last two conjuncts show
both aborts end-to-end through `Converter::go` on concrete streams. -/
theorem c6_fatal_outcomes :
    (∀ (d : Descriptor) (st : WState),
        (st.stack = [] ∨ ∃ top rest, st.stack = top :: rest ∧ sameKind top d = false) →
        close_descriptor d st = .error .panicked) ∧
    (∀ (ml : Nat) (st : WState), st.stack ≠ [] →
        finalize ml st = .error .unbalancedTags) ∧
    convGo 100 "x".toList [.Start .Strong, .End .Emphasis] 50 = .panicked ∧
    convGo 100 "x".toList [.Start .Strong] 50 = .error .unbalancedTags := by
  refine ⟨?_, ?_, by decide, by decide⟩
  · intro d st h
    rcases h with h | ⟨top, rest, hst, hsk⟩
    · simp [close_descriptor, h]
    · simp [close_descriptor, hst, hsk]
  · intro ml st h
    have hs : st.stack.isEmpty = false := by
      cases hh : st.stack with
      | nil => exact absurd hh h
      | cons a l => rfl
    simp [finalize, hs]

/-- Witness for C6's amended theorem: a mismatched pop, a pop from an empty
stack, and a leftover scope at end of stream, each at a concrete state. -/
theorem c6_fatal_outcomes_witness :
    close_descriptor .Emphasis { initWState with stack := [.Strong] }
      = .error .panicked ∧
    close_descriptor .Strong initWState = .error .panicked ∧
    finalize 100 { initWState with stack := [.Strong] } = .error .unbalancedTags :=
  ⟨c6_fatal_outcomes.1 .Emphasis { initWState with stack := [.Strong] }
     (Or.inr ⟨.Strong, [], by decide, by decide⟩),
   c6_fatal_outcomes.1 .Strong initWState (Or.inl (by decide)),
   c6_fatal_outcomes.2.1 100 { initWState with stack := [.Strong] } (by decide)⟩

/-- C7: the no-whitespace hard cut slices at the raw byte offset
`available`, which need not be a character boundary: on `éé` (four bytes)
with `max_len = 3`, `split_point` finds no whitespace, `output_with_skip`
calls `remaining.split_at(3)`, and byte 3 lies inside the second `é` —
the Rust call panics instead of cutting on a boundary. -/
theorem c7_hard_cut_mid_codepoint_panics :
    convGo 3 "éé".toList [.Start .Paragraph, .Text "éé".toList, .End .Paragraph] 50
      = .panicked := by
  decide

/-- C8: on an Image start the converter always emits the fixed placeholder
title `Image` and skips the alt-text events; the alt text is never used,
although the crate's own test `renders_image_as_link` expects
`[logo](...)` for input `![logo](...)`. -/
theorem c8_image_title_placeholder_always :
    convGo 100 "![logo](u)".toList
      [.Start .Paragraph, .Start (.Image "u".toList), .Text "logo".toList, .End .Image,
       .End .Paragraph] 50
      = .ok ["[Image](u)".toList] ∧
    "[Image](u)".toList ≠ "[logo](u)".toList := by
  constructor
  · decide
  · decide

/-- C9: `go` resets `self` to `Self::new(self.max_len)` on entry, so its
result depends only on `max_len` (and the inputs): two converters with the
same `max_len` — whatever junk their other fields hold — give the same
result, and calling `go` again on the converter a call leaves behind
reproduces the first result. -/
theorem c9_go_deterministic_and_fresh (c₁ c₂ : Converter) (md : Str) (ev : List Event)
    (fuel : Nat) (h : c₁.max_len = c₂.max_len) :
    (Converter.go c₁ md ev fuel).1 = (Converter.go c₂ md ev fuel).1 ∧
    (Converter.go (Converter.go c₁ md ev fuel).2 md ev fuel).1
      = (Converter.go c₁ md ev fuel).1 := by
  constructor
  · rw [go_only_uses_max_len c₁ c₂ md ev fuel h]
  · rw [go_only_uses_max_len (Converter.go c₁ md ev fuel).2 c₁ md ev fuel
      (go_state_max_len c₁ md ev fuel)]

/-- A converter with arbitrary junk in every non-`max_len` field, for the
C9 witness. -/
def c9Junk : Converter :=
  { max_len := 10, result := ["junk".toList], stack := [.Strong], add_new_line := true,
    quote_level := 3, list_stack := [ListState.new (some 5) 2],
    carry_list_indent_levels := 7, afterListPref := true, link_dest_url := "u".toList,
    skip_depth := 2 }

/-- Witness for C9 at a concrete input and a concrete junk-filled converter. -/
theorem c9_witness :
    (Converter.go (Converter.new 10) "hi".toList
        [.Start .Paragraph, .Text "hi".toList, .End .Paragraph] 50).1
      = (Converter.go c9Junk "hi".toList
        [.Start .Paragraph, .Text "hi".toList, .End .Paragraph] 50).1 ∧
    (Converter.go (Converter.go (Converter.new 10) "hi".toList
        [.Start .Paragraph, .Text "hi".toList, .End .Paragraph] 50).2 "hi".toList
        [.Start .Paragraph, .Text "hi".toList, .End .Paragraph] 50).1
      = (Converter.go (Converter.new 10) "hi".toList
        [.Start .Paragraph, .Text "hi".toList, .End .Paragraph] 50).1 :=
  c9_go_deterministic_and_fresh (Converter.new 10) c9Junk "hi".toList
    [.Start .Paragraph, .Text "hi".toList, .End .Paragraph] 50 (by decide)

/-- C10 counterexample: `[](u)` is non-empty after trimming and parses to a
paragraph holding a link with destination `u` and no title text; no event
emits any text, so `go` returns `Ok` with the single chunk `""` — an
empty-string chunk. -/
theorem c10_empty_chunk_exists :
    rustTrim "[](u)".toList ≠ [] ∧
    convGo 100 "[](u)".toList
      [.Start .Paragraph, .Start (.Link "u".toList), .End .Link, .End .Paragraph] 50
      = .ok [[]] := by
  constructor
  · decide
  · decide

/-- C10 amended: for input that is non-empty after trimming, an `Ok` result
always carries a non-empty chunk list (the first chunk is pushed before the
event loop and chunks are never removed); its chunks may however be empty
strings. -/
theorem c10_ok_chunk_list_nonempty (ml fuel : Nat) (md : Str) (ev : List Event)
    (chunks : List Str) (hmd : rustTrim md ≠ [])
    (h : convGo ml md ev fuel = .ok chunks) : chunks ≠ [] := by
  have hmd' : (rustTrim md).isEmpty = false := by
    cases hh : rustTrim md with
    | nil => exact absurd hh hmd
    | cons a l => rfl
  unfold convGo Converter.go at h
  simp only [Converter.new, hmd', Bool.false_eq_true, if_false] at h
  split at h
  · simp at h
  · simp at h
  · next st heq =>
    dsimp only [] at h
    rw [finalize_ok_shape h]
    simp

/-- Witness for C10's amended theorem at a concrete input. -/
theorem c10_ok_chunk_list_nonempty_witness :
    rustTrim "hi".toList ≠ ([] : Str) ∧
    convGo 50 "hi".toList [.Start .Paragraph, .Text "hi".toList, .End .Paragraph] 50
      = .ok ["hi".toList] ∧ (["hi".toList] : List Str) ≠ [] :=
  ⟨by decide, by decide,
   c10_ok_chunk_list_nonempty 50 50 "hi".toList
     [.Start .Paragraph, .Text "hi".toList, .End .Paragraph] ["hi".toList]
     (by decide) (by decide)⟩

end Md2tgmd
